import Mathlib

/-!
Shallow embedding of the two conversion scripts of the
solargene-mods-localization repository:

* `generate_weblate_csv.py` — the exporter: converts an original-schema CSV
  (`Key,SourceString,Comment`) into the platform schema
  (`source,target,developer_comments`), merging non-destructively with a
  pre-existing platform-schema file at the destination.
* `apply_translate.py` — the importer: applies a translation map read from a
  platform-schema file back onto an original-schema file.

Python dicts are embedded as ordered association lists (`List (String × α)`):
assignment to an existing key replaces the value in place, assignment to a
fresh key appends at the end, exactly as CPython dicts behave.  File I/O is
embedded as explicit data: a file read that can fail mid-iteration is an
`Option (List α × Bool)` (`none` = the file could not be opened; for
`some (rows, aborted)` the rows are those the CSV iterator yielded before
either end of file (`aborted = false`) or an exception (`aborted = true`)),
and a written file is the list of data rows placed after the header.
-/

namespace Loc

/-- Original ("authoring") schema row: `Key,SourceString,Comment`.  A field
absent from a CSV row is read with `row.get(name, "")` in the scripts, so a
missing field is embedded as the empty string. -/
structure OrigRow where
  Key : String
  SourceString : String
  Comment : String
deriving DecidableEq

/-- Platform ("weblate") schema row: `source,target,developer_comments`.
The exporter also uses this shape for the values of its dictionaries, since
the scripts store `{"source": ..., "target": ..., "developer_comments": ...}`
dicts as values. -/
structure PlatRow where
  source : String
  target : String
  developer_comments : String
deriving DecidableEq

/-- Value stored by the importer's translation map:
`{"target": ..., "developer_comments": ...}`. -/
structure TransEntry where
  target : String
  developer_comments : String
deriving DecidableEq

/-- Result of opening and iterating a CSV file, as seen by the `try` blocks
of the scripts: `none` when the file cannot be opened at all; `some (rows, b)`
when the iterator yielded `rows` and then either reached end of file
(`b = false`) or raised a parse error (`b = true`). -/
abbrev FileRead (α : Type) := Option (List α × Bool)

/-- Python dict lookup `d[k]` / `d.get(k)` on the association-list embedding
of a dict. -/
def lookup {α : Type} : List (String × α) → String → Option α
  | [], _ => none
  | (k', v) :: rest, k => if k' = k then some v else lookup rest k

/-- Python `k in d`. -/
def containsKey {α : Type} (m : List (String × α)) (k : String) : Bool :=
  (lookup m k).isSome

/-- Python dict assignment `d[k] = v`: replace the value at `k` in place when
the key is present, append the pair at the end otherwise. -/
def insertOrUpdate {α : Type} : List (String × α) → String → α → List (String × α)
  | [], k, v => [(k, v)]
  | (k', w) :: rest, k, v =>
      if k' = k then (k', v) :: rest
      else (k', w) :: insertOrUpdate rest k v

/-- The keys of a dict, in iteration order. -/
def keysOf {α : Type} (m : List (String × α)) : List String :=
  m.map (fun p => p.1)

/-! Exporter: `generate_weblate_csv.py`. -/

/-- Loop body of `read_csv_to_dict`: fold the yielded rows into a dict keyed
by the `source` column, skipping rows whose `source` is empty. -/
def read_csv_to_dict_rows (rows : List PlatRow) : List (String × PlatRow) :=
  rows.foldl
    (fun data row =>
      if row.source = "" then data
      else insertOrUpdate data row.source
        { source := row.source, target := row.target,
          developer_comments := row.developer_comments })
    []

/-- `read_csv_to_dict`: the dict is created before the `try` block, so an
open failure returns the empty dict and a parse failure partway through
iteration returns the dict accumulated from the rows yielded so far. -/
def read_csv_to_dict (f : FileRead PlatRow) : List (String × PlatRow) :=
  match f with
  | none => []
  | some (rows, _) => read_csv_to_dict_rows rows

/-- Dict `new_data` built by `update_or_insert_existing_file` from the
original-schema input rows: keyed by `Key`, skipping rows with empty `Key`,
with `target := SourceString` and `developer_comments := Comment`. -/
def new_data_of (rows : List OrigRow) : List (String × PlatRow) :=
  rows.foldl
    (fun nd row =>
      if row.Key = "" then nd
      else insertOrUpdate nd row.Key
        { source := row.Key, target := row.SourceString,
          developer_comments := row.Comment })
    []

/-- The two in-place field updates performed on an existing entry during the
merge: fill `target` only when the existing `target` is empty, fill
`developer_comments` only when the existing one is empty. -/
def fill_entry (e v : PlatRow) : PlatRow :=
  { e with
    target := if e.target = "" then v.target else e.target,
    developer_comments :=
      if e.developer_comments = "" then v.developer_comments
      else e.developer_comments }

/-- Mutation `existing_data[key]` field updates: replace the entry stored at
`k` (at its current position) by its filled-in version. -/
def updateFill : List (String × PlatRow) → String → PlatRow → List (String × PlatRow)
  | [], _, _ => []
  | (k', e) :: rest, k, v =>
      if k' = k then (k', fill_entry e v) :: rest
      else (k', e) :: updateFill rest k v

/-- The merge loop `for key, new_row in new_data.items(): ...` of
`update_or_insert_existing_file`: update in place when the key exists
(never overwriting a non-empty field), append the new entry otherwise.
(The Python builds a fresh dict with the same three fields for the append;
by value semantics that is the entry itself.) -/
def mergeInto (existing_data new_data : List (String × PlatRow)) : List (String × PlatRow) :=
  new_data.foldl
    (fun ed kv =>
      if containsKey ed kv.1 then updateFill ed kv.1 kv.2
      else ed ++ [kv])
    existing_data

/-- The write loop of `update_or_insert_existing_file`: the data rows written
after the header are the dict values, in iteration order, restricted to
values with a non-empty `source` field. -/
def writeRows (m : List (String × PlatRow)) : List PlatRow :=
  (m.map (fun p => p.2)).filter (fun row => row.source ≠ "")

/-- `update_or_insert_existing_file`.  The existing file is read first (with
the best-effort reader); if reading the input file raises, the function
returns before any write (`none` = the existing file is untouched); otherwise
the output file is rewritten with the merged rows (`some` = header plus the
returned data rows). -/
def update_or_insert_existing_file (existingFile : FileRead PlatRow)
    (inputFile : Except Unit (List OrigRow)) : Option (List PlatRow) :=
  let existing_data := read_csv_to_dict existingFile
  match inputFile with
  | Except.error _ => none
  | Except.ok rows => some (writeRows (mergeInto existing_data (new_data_of rows)))

/-- Row-collecting loop of `create_new_file`: append one converted row per
input row, skipping rows with empty `Key`. -/
def create_rows (rows : List OrigRow) : List PlatRow :=
  rows.foldl
    (fun acc row =>
      if row.Key = "" then acc
      else acc ++ [{ source := row.Key, target := row.SourceString,
                     developer_comments := row.Comment }])
    []

/-- `create_new_file` (fresh export): if the input read raises, or no valid
row results, no output file is written (`none`); otherwise the file is
written with the converted rows. -/
def create_new_file (inputFile : Except Unit (List OrigRow)) : Option (List PlatRow) :=
  match inputFile with
  | Except.error _ => none
  | Except.ok rows =>
      let out := create_rows rows
      if out = [] then none else some out

/-! Importer: `apply_translate.py`. -/

/-- Loop body of `read_translation_map`, over the yielded rows. -/
def read_translation_map_rows (rows : List PlatRow) : List (String × TransEntry) :=
  rows.foldl
    (fun m row =>
      if row.source = "" then m
      else insertOrUpdate m row.source
        { target := row.target, developer_comments := row.developer_comments })
    []

/-- `read_translation_map`: same try/except shape as `read_csv_to_dict`
(dict declared before the `try`), so an open failure yields the empty map and
a mid-iteration parse failure yields the map accumulated so far. -/
def read_translation_map (f : FileRead PlatRow) : List (String × TransEntry) :=
  match f with
  | none => []
  | some (rows, _) => read_translation_map_rows rows

/-- Per-row body of `apply_translation_to_original`: replace `SourceString`
by the mapped target when the key is in the map and the mapped target is
non-empty; `Key` and `Comment` are carried through unchanged. -/
def apply_row (tm : List (String × TransEntry)) (row : OrigRow) : OrigRow :=
  let s :=
    match lookup tm row.Key with
    | some e => if e.target ≠ "" then e.target else row.SourceString
    | none => row.SourceString
  { Key := row.Key, SourceString := s, Comment := row.Comment }

/-- Row-collecting loop of `apply_translation_to_original` (no key filter:
every input row is appended). -/
def apply_rows (tm : List (String × TransEntry)) (rows : List OrigRow) : List OrigRow :=
  rows.foldl (fun acc row => acc ++ [apply_row tm row]) []

/-- `apply_translation_to_original`: if the input read raises, nothing is
written; if the resulting row list is empty, nothing is written; otherwise
the output file is written with the resulting rows. -/
def apply_translation_to_original (inputFile : Except Unit (List OrigRow))
    (tm : List (String × TransEntry)) : Option (List OrigRow) :=
  match inputFile with
  | Except.error _ => none
  | Except.ok rows =>
      let out := apply_rows tm rows
      if out = [] then none else some out

/-- The export-then-import pipeline on one file, as `process_all_csv_files`
of the two scripts composes it on a fresh destination: a fresh export of the
original rows, then the importer run on the same original rows against the
translation map read from the exported file (the empty map when no file was
exported). -/
def round_trip (rows : List OrigRow) : List OrigRow :=
  match create_new_file (Except.ok rows) with
  | some written => apply_rows (read_translation_map (some (written, false))) rows
  | none => apply_rows [] rows

/-- Every entry of an exporter dict stores its own key in its `source` field,
and that key is non-empty.  This holds for every dict the exporter builds and
is what makes the written rows reproduce the dict. -/
def goodMap (m : List (String × PlatRow)) : Prop :=
  ∀ p ∈ m, p.2.source = p.1 ∧ p.1 ≠ ""

/-- Generalisation of the dict-building loops shared by `read_csv_to_dict`,
`read_translation_map` and the `new_data` loop of
`update_or_insert_existing_file`: fold rows into a dict, skipping rows whose
key is empty.  Each of those loops is definitionally an instance of this. -/
def dict_fold {α β : Type} (key : β → String) (val : β → α)
    (acc : List (String × α)) (rows : List β) : List (String × α) :=
  rows.foldl (fun m r => if key r = "" then m else insertOrUpdate m (key r) (val r)) acc

/-! Basic lemmas about the dict embedding. -/

theorem lookup_insertOrUpdate {α : Type} (m : List (String × α)) (k k' : String) (v : α) :
    lookup (insertOrUpdate m k v) k' = if k' = k then some v else lookup m k' := by
  induction m with
  | nil =>
      by_cases h : k' = k
      · subst h; simp [insertOrUpdate, lookup]
      · simp [insertOrUpdate, lookup, h, Ne.symm h]
  | cons p rest ih =>
      obtain ⟨k0, w⟩ := p
      by_cases h0 : k0 = k
      · subst h0
        by_cases h : k0 = k'
        · subst h; simp [insertOrUpdate, lookup]
        · simp [insertOrUpdate, lookup, h, Ne.symm h]
      · by_cases h : k0 = k'
        · subst h
          simp [insertOrUpdate, lookup, h0, Ne.symm h0]
        · simp [insertOrUpdate, lookup, h0, h, ih]

theorem lookup_append_single_self {α : Type} (m : List (String × α)) (k : String) (v : α)
    (h : lookup m k = none) : lookup (m ++ [(k, v)]) k = some v := by
  induction m with
  | nil => simp [lookup]
  | cons p rest ih =>
      obtain ⟨k0, w⟩ := p
      by_cases h0 : k0 = k
      · simp [lookup, h0] at h
      · simp only [lookup, h0, if_false, List.cons_append, if_neg h0] at h ⊢
        exact ih h

theorem lookup_append_single_ne {α : Type} (m : List (String × α)) (k k' : String) (v : α)
    (h : k' ≠ k) : lookup (m ++ [(k, v)]) k' = lookup m k' := by
  induction m with
  | nil => simp [lookup, Ne.symm h]
  | cons p rest ih =>
      obtain ⟨k0, w⟩ := p
      by_cases h0 : k0 = k' <;> simp [lookup, h0, ih]

theorem lookup_eq_none_iff {α : Type} (m : List (String × α)) (k : String) :
    lookup m k = none ↔ k ∉ keysOf m := by
  induction m with
  | nil => simp [lookup, keysOf]
  | cons p rest ih =>
      obtain ⟨k0, w⟩ := p
      by_cases h0 : k0 = k
      · subst h0; simp [lookup, keysOf]
      · simp [lookup, keysOf, h0, ih, Ne.symm h0]

theorem containsKey_eq_false_iff {α : Type} (m : List (String × α)) (k : String) :
    containsKey m k = false ↔ k ∉ keysOf m := by
  rw [← lookup_eq_none_iff]
  cases h : lookup m k <;> simp [containsKey, h]

theorem lookup_of_contains {α : Type} (m : List (String × α)) (k : String)
    (h : containsKey m k = true) : ∃ v, lookup m k = some v := by
  cases hl : lookup m k with
  | none => rw [containsKey, hl] at h; simp at h
  | some v => exact ⟨v, rfl⟩

theorem lookup_of_not_contains {α : Type} (m : List (String × α)) (k : String)
    (h : containsKey m k = false) : lookup m k = none := by
  cases hl : lookup m k with
  | none => rfl
  | some v => rw [containsKey, hl] at h; simp at h

theorem mem_lookup_of_nodup {α : Type} :
    ∀ (m : List (String × α)) (p : String × α), (keysOf m).Nodup → p ∈ m →
      lookup m p.1 = some p.2 := by
  intro m
  induction m with
  | nil => intro p _ hp; simp at hp
  | cons q rest ih =>
      intro p hnd hp
      obtain ⟨k0, w⟩ := q
      have hnd' : k0 ∉ keysOf rest ∧ (keysOf rest).Nodup := by simpa [keysOf] using hnd
      rcases List.mem_cons.mp hp with h | h
      · subst h; simp [lookup]
      · have hk : p.1 ∈ keysOf rest := List.mem_map.mpr ⟨p, h, rfl⟩
        have hne : k0 ≠ p.1 := fun he => hnd'.1 (he ▸ hk)
        simp only [lookup, if_neg hne]
        exact ih p hnd'.2 h

theorem keysOf_insertOrUpdate {α : Type} (m : List (String × α)) (k : String) (v : α) :
    keysOf (insertOrUpdate m k v) =
      if containsKey m k then keysOf m else keysOf m ++ [k] := by
  induction m with
  | nil => simp [insertOrUpdate, keysOf, containsKey, lookup]
  | cons p rest ih =>
      obtain ⟨k0, w⟩ := p
      by_cases h0 : k0 = k
      · subst h0; simp [insertOrUpdate, keysOf, containsKey, lookup]
      · have hcc : containsKey ((k0, w) :: rest) k = containsKey rest k := by
          simp [containsKey, lookup, h0]
        have hku : keysOf (insertOrUpdate ((k0, w) :: rest) k v)
            = k0 :: keysOf (insertOrUpdate rest k v) := by
          simp [insertOrUpdate, h0, keysOf]
        rw [hcc, hku, ih]
        by_cases hc : containsKey rest k = true <;> simp [hc, keysOf]

theorem insertOrUpdate_of_not_contains {α : Type} (m : List (String × α)) (k : String) (v : α)
    (h : containsKey m k = false) : insertOrUpdate m k v = m ++ [(k, v)] := by
  induction m with
  | nil => simp [insertOrUpdate]
  | cons p rest ih =>
      obtain ⟨k0, w⟩ := p
      by_cases h0 : k0 = k
      · rw [containsKey] at h; simp [lookup, h0] at h
      · rw [containsKey] at h
        simp only [lookup, if_neg h0] at h
        simp [insertOrUpdate, h0, ih h]

/-! Lemmas about the merge primitives. -/

theorem lookup_updateFill (m : List (String × PlatRow)) (k k' : String) (v : PlatRow) :
    lookup (updateFill m k v) k' =
      if k' = k then (lookup m k).map (fun e => fill_entry e v) else lookup m k' := by
  induction m with
  | nil =>
      by_cases h : k' = k <;> simp [updateFill, lookup, h]
  | cons p rest ih =>
      obtain ⟨k0, e⟩ := p
      by_cases h0 : k0 = k
      · subst h0
        by_cases h : k0 = k'
        · subst h; simp [updateFill, lookup]
        · simp [updateFill, lookup, h, Ne.symm h]
      · by_cases h : k0 = k'
        · subst h
          simp [updateFill, lookup, h0, Ne.symm h0]
        · simp [updateFill, lookup, h0, h, ih]

theorem keysOf_updateFill (m : List (String × PlatRow)) (k : String) (v : PlatRow) :
    keysOf (updateFill m k v) = keysOf m := by
  induction m with
  | nil => simp [updateFill]
  | cons p rest ih =>
      obtain ⟨k0, e⟩ := p
      by_cases h0 : k0 = k
      · simp [updateFill, keysOf, h0]
      · simp only [updateFill, if_neg h0, keysOf, List.map_cons]
        simpa [keysOf] using ih

theorem containsKey_updateFill (m : List (String × PlatRow)) (k k' : String) (v : PlatRow) :
    containsKey (updateFill m k v) k' = containsKey m k' := by
  rw [containsKey, containsKey, lookup_updateFill]
  by_cases h : k' = k
  · subst h; simp
  · simp [h]

theorem fill_entry_source (e v : PlatRow) : (fill_entry e v).source = e.source := rfl

theorem fill_entry_self (v : PlatRow) : fill_entry v v = v := by
  cases v; simp [fill_entry]

theorem fill_entry_fill (e v : PlatRow) : fill_entry (fill_entry e v) v = fill_entry e v := by
  cases e; cases v
  simp only [fill_entry]
  congr 1 <;> split_ifs <;> simp_all

theorem updateFill_eq_self (m : List (String × PlatRow)) (k : String) (v e : PlatRow)
    (h1 : lookup m k = some e) (h2 : fill_entry e v = e) : updateFill m k v = m := by
  induction m with
  | nil => rfl
  | cons p rest ih =>
      obtain ⟨k0, w⟩ := p
      by_cases h0 : k0 = k
      · simp only [lookup, if_pos h0, Option.some.injEq] at h1
        subst h1
        simp [updateFill, h0, h2]
      · simp only [lookup, if_neg h0] at h1
        simp [updateFill, h0, ih h1]

theorem mergeInto_nil (E : List (String × PlatRow)) : mergeInto E [] = E := rfl

theorem mergeInto_cons (E : List (String × PlatRow)) (kv : String × PlatRow)
    (rest : List (String × PlatRow)) :
    mergeInto E (kv :: rest) =
      mergeInto (if containsKey E kv.1 then updateFill E kv.1 kv.2 else E ++ [kv]) rest := rfl

theorem lookup_mergeInto :
    ∀ (N E : List (String × PlatRow)) (k : String), (keysOf N).Nodup →
      lookup (mergeInto E N) k =
        match lookup N k with
        | none => lookup E k
        | some v =>
            match lookup E k with
            | some e => some (fill_entry e v)
            | none => some v := by
  intro N
  induction N with
  | nil => intro E k _; simp [mergeInto_nil, lookup]
  | cons kv rest ih =>
      intro E k hN
      obtain ⟨k1, v1⟩ := kv
      have hsplit : k1 ∉ keysOf rest ∧ (keysOf rest).Nodup := by simpa [keysOf] using hN
      rw [mergeInto_cons]
      by_cases hEq : k = k1
      · subst hEq
        have hrk : lookup rest k = none := (lookup_eq_none_iff rest k).mpr hsplit.1
        rw [ih _ k hsplit.2, hrk]
        have hNk : lookup ((k, v1) :: rest) k = some v1 := by simp [lookup]
        rw [hNk]
        by_cases hc : containsKey E k = true
        · obtain ⟨e, he⟩ := lookup_of_contains E k hc
          simp only [hc, if_true, lookup_updateFill, if_pos rfl, he]
          rfl
        · have hE : lookup E k = none := lookup_of_not_contains E k (by simpa using hc)
          simp only [hc, if_false, Bool.false_eq_true]
          rw [lookup_append_single_self E k v1 hE, hE]
      · have hNk : lookup ((k1, v1) :: rest) k = lookup rest k := by
          simp [lookup, Ne.symm hEq]
        rw [ih _ k hsplit.2, hNk]
        have hE' :
            lookup (if containsKey E k1 then updateFill E k1 v1 else E ++ [(k1, v1)]) k
              = lookup E k := by
          by_cases hc : containsKey E k1 = true
          · simp [hc, lookup_updateFill, hEq]
          · simp only [hc, if_false, Bool.false_eq_true]
            exact lookup_append_single_ne E k1 k v1 hEq
        rw [hE']

theorem keysOf_mergeInto :
    ∀ (N E : List (String × PlatRow)), (keysOf N).Nodup →
      keysOf (mergeInto E N) =
        keysOf E ++ (keysOf N).filter (fun k => !containsKey E k) := by
  intro N
  induction N with
  | nil => intro E _; simp [mergeInto_nil, keysOf]
  | cons kv rest ih =>
      intro E hN
      obtain ⟨k1, v1⟩ := kv
      have hsplit : k1 ∉ keysOf rest ∧ (keysOf rest).Nodup := by simpa [keysOf] using hN
      rw [mergeInto_cons]
      by_cases hc : containsKey E k1 = true
      · simp only [hc, if_true]
        rw [ih _ hsplit.2, keysOf_updateFill]
        have hfil :
            (keysOf rest).filter (fun k => !containsKey (updateFill E k1 v1) k)
              = (keysOf rest).filter (fun k => !containsKey E k) := by
          simp only [containsKey_updateFill]
        rw [hfil]
        have : keysOf ((k1, v1) :: rest) = k1 :: keysOf rest := by simp [keysOf]
        rw [this, List.filter_cons_of_neg (by simp [hc])]
      · simp only [hc, if_false, Bool.false_eq_true]
        rw [ih _ hsplit.2]
        have hkeys : keysOf (E ++ [(k1, v1)]) = keysOf E ++ [k1] := by simp [keysOf]
        have hfil :
            (keysOf rest).filter (fun k => !containsKey (E ++ [(k1, v1)]) k)
              = (keysOf rest).filter (fun k => !containsKey E k) := by
          apply List.filter_congr
          intro k hk
          have hne : k ≠ k1 := fun he => hsplit.1 (he ▸ hk)
          simp [containsKey, lookup_append_single_ne E k1 k v1 hne]
        rw [hkeys, hfil]
        have : keysOf ((k1, v1) :: rest) = k1 :: keysOf rest := by simp [keysOf]
        rw [this, List.filter_cons_of_pos (by simpa using hc), List.append_assoc,
          List.singleton_append]

theorem mergeInto_eq_self :
    ∀ (N m : List (String × PlatRow)),
      (∀ p ∈ N, ∃ e, lookup m p.1 = some e ∧ fill_entry e p.2 = e) →
      mergeInto m N = m := by
  intro N
  induction N with
  | nil => intro m _; rfl
  | cons kv rest ih =>
      intro m h
      obtain ⟨e, he, hfe⟩ := h kv (List.mem_cons_self kv rest)
      have hc : containsKey m kv.1 = true := by simp [containsKey, he]
      rw [mergeInto_cons, if_pos hc, updateFill_eq_self m kv.1 kv.2 e he hfe]
      exact ih m (fun p hp => h p (List.mem_cons_of_mem kv hp))

/-! The three dict-building loops are instances of `dict_fold`. -/

theorem read_csv_to_dict_rows_eq_fold (rows : List PlatRow) :
    read_csv_to_dict_rows rows = dict_fold (fun r => r.source) (fun r => r) [] rows := rfl

theorem new_data_of_eq_fold (rows : List OrigRow) :
    new_data_of rows =
      dict_fold (fun r => r.Key)
        (fun row => { source := row.Key, target := row.SourceString,
                      developer_comments := row.Comment }) [] rows := rfl

theorem read_translation_map_rows_eq_fold (rows : List PlatRow) :
    read_translation_map_rows rows =
      dict_fold (fun r => r.source)
        (fun row => { target := row.target,
                      developer_comments := row.developer_comments }) [] rows := rfl

theorem dict_fold_nil {α β : Type} (key : β → String) (val : β → α)
    (acc : List (String × α)) : dict_fold key val acc [] = acc := rfl

theorem dict_fold_cons {α β : Type} (key : β → String) (val : β → α)
    (acc : List (String × α)) (r : β) (rows : List β) :
    dict_fold key val acc (r :: rows) =
      dict_fold key val
        (if key r = "" then acc else insertOrUpdate acc (key r) (val r)) rows := rfl

theorem dict_fold_append_single {α β : Type} (key : β → String) (val : β → α)
    (acc : List (String × α)) (rows : List β) (r : β) :
    dict_fold key val acc (rows ++ [r]) =
      if key r = "" then dict_fold key val acc rows
      else insertOrUpdate (dict_fold key val acc rows) (key r) (val r) := by
  rw [dict_fold, List.foldl_append]
  rfl

theorem dict_fold_lookup_empty {α β : Type} (key : β → String) (val : β → α) :
    ∀ (rows : List β) (acc : List (String × α)),
      lookup (dict_fold key val acc rows) "" = lookup acc "" := by
  intro rows
  induction rows with
  | nil => intro acc; rfl
  | cons r rest ih =>
      intro acc
      rw [dict_fold_cons]
      by_cases h : key r = ""
      · rw [if_pos h, ih]
      · rw [if_neg h, ih, lookup_insertOrUpdate, if_neg (fun he => h he.symm)]

theorem dict_fold_nodup {α β : Type} (key : β → String) (val : β → α) :
    ∀ (rows : List β) (acc : List (String × α)),
      (keysOf acc).Nodup → (keysOf (dict_fold key val acc rows)).Nodup := by
  intro rows
  induction rows with
  | nil => intro acc h; exact h
  | cons r rest ih =>
      intro acc h
      rw [dict_fold_cons]
      by_cases hk : key r = ""
      · rw [if_pos hk]; exact ih acc h
      · rw [if_neg hk]
        apply ih
        rw [keysOf_insertOrUpdate]
        by_cases hc : containsKey acc (key r) = true
        · rw [if_pos hc]; exact h
        · rw [if_neg hc]
          refine h.append (List.nodup_singleton _) ?_
          intro a ha hb
          rw [List.mem_singleton] at hb
          subst hb
          exact ((containsKey_eq_false_iff acc (key r)).mp (by simpa using hc)) ha

theorem dict_fold_lookup_mem {α β : Type} (key : β → String) (val : β → α) :
    ∀ (rows : List β) (acc : List (String × α)) (k : String) (v : α),
      lookup (dict_fold key val acc rows) k = some v →
      (∃ r ∈ rows, key r = k ∧ key r ≠ "" ∧ v = val r) ∨ lookup acc k = some v := by
  intro rows
  induction rows with
  | nil => intro acc k v h; exact Or.inr h
  | cons r rest ih =>
      intro acc k v h
      rw [dict_fold_cons] at h
      by_cases hk : key r = ""
      · rw [if_pos hk] at h
        rcases ih acc k v h with ⟨r', hr', h1, h2, h3⟩ | hacc
        · exact Or.inl ⟨r', List.mem_cons_of_mem r hr', h1, h2, h3⟩
        · exact Or.inr hacc
      · rw [if_neg hk] at h
        rcases ih _ k v h with ⟨r', hr', h1, h2, h3⟩ | hacc
        · exact Or.inl ⟨r', List.mem_cons_of_mem r hr', h1, h2, h3⟩
        · rw [lookup_insertOrUpdate] at hacc
          by_cases he : k = key r
          · rw [if_pos he] at hacc
            exact Or.inl ⟨r, List.mem_cons_self r rest, he.symm, hk,
              (Option.some.injEq _ _ ▸ hacc).symm ▸ rfl⟩
          · rw [if_neg he] at hacc
            exact Or.inr hacc

theorem dict_fold_contains_mono {α β : Type} (key : β → String) (val : β → α) :
    ∀ (rows : List β) (acc : List (String × α)) (k : String),
      containsKey acc k = true → containsKey (dict_fold key val acc rows) k = true := by
  intro rows
  induction rows with
  | nil => intro acc k h; exact h
  | cons r rest ih =>
      intro acc k h
      rw [dict_fold_cons]
      by_cases hk : key r = ""
      · rw [if_pos hk]; exact ih acc k h
      · rw [if_neg hk]
        apply ih
        rw [containsKey, lookup_insertOrUpdate]
        by_cases he : k = key r
        · rw [if_pos he]; rfl
        · rw [if_neg he]; exact h

theorem dict_fold_contains_of_mem {α β : Type} (key : β → String) (val : β → α) :
    ∀ (rows : List β) (acc : List (String × α)) (r : β),
      r ∈ rows → key r ≠ "" → containsKey (dict_fold key val acc rows) (key r) = true := by
  intro rows
  induction rows with
  | nil => intro acc r h; exact absurd h (List.not_mem_nil r)
  | cons r0 rest ih =>
      intro acc r hmem hk
      rcases List.mem_cons.mp hmem with h | h
      · subst h
        rw [dict_fold_cons, if_neg hk]
        apply dict_fold_contains_mono
        rw [containsKey, lookup_insertOrUpdate, if_pos rfl]
        rfl
      · rw [dict_fold_cons]
        by_cases hk0 : key r0 = ""
        · rw [if_pos hk0]; exact ih acc r h hk
        · rw [if_neg hk0]; exact ih _ r h hk

/-! `goodMap` invariants and the write/re-read round trip. -/

theorem good_insertOrUpdate {m : List (String × PlatRow)} {k : String} {v : PlatRow}
    (h : goodMap m) (hv : v.source = k) (hk : k ≠ "") : goodMap (insertOrUpdate m k v) := by
  induction m with
  | nil =>
      intro p hp
      rw [insertOrUpdate, List.mem_singleton] at hp
      subst hp
      exact ⟨hv, hk⟩
  | cons q rest ih =>
      obtain ⟨k0, w⟩ := q
      intro p hp
      by_cases h0 : k0 = k
      · rw [insertOrUpdate, if_pos h0] at hp
        rcases List.mem_cons.mp hp with hh | hh
        · subst hh; exact ⟨h0 ▸ hv, h0 ▸ hk⟩
        · exact h p (List.mem_cons_of_mem _ hh)
      · rw [insertOrUpdate, if_neg h0] at hp
        rcases List.mem_cons.mp hp with hh | hh
        · subst hh; exact h _ (List.mem_cons_self _ _)
        · exact ih (fun q hq => h q (List.mem_cons_of_mem _ hq)) p hh

theorem good_updateFill {m : List (String × PlatRow)} (k : String) (v : PlatRow)
    (h : goodMap m) : goodMap (updateFill m k v) := by
  induction m with
  | nil => intro p hp; simp [updateFill] at hp
  | cons q rest ih =>
      obtain ⟨k0, e⟩ := q
      intro p hp
      by_cases h0 : k0 = k
      · rw [updateFill, if_pos h0] at hp
        rcases List.mem_cons.mp hp with hh | hh
        · subst hh
          have := h _ (List.mem_cons_self (k0, e) rest)
          exact ⟨by simpa [fill_entry_source] using this.1, this.2⟩
        · exact h p (List.mem_cons_of_mem _ hh)
      · rw [updateFill, if_neg h0] at hp
        rcases List.mem_cons.mp hp with hh | hh
        · subst hh; exact h _ (List.mem_cons_self _ _)
        · exact ih (fun q hq => h q (List.mem_cons_of_mem _ hq)) p hh

theorem good_mergeInto :
    ∀ (N E : List (String × PlatRow)), goodMap E → goodMap N → goodMap (mergeInto E N) := by
  intro N
  induction N with
  | nil => intro E hE _; exact hE
  | cons kv rest ih =>
      intro E hE hN
      rw [mergeInto_cons]
      have hkv := hN kv (List.mem_cons_self kv rest)
      have hrest : goodMap rest := fun q hq => hN q (List.mem_cons_of_mem _ hq)
      by_cases hc : containsKey E kv.1 = true
      · rw [if_pos hc]
        exact ih _ (good_updateFill kv.1 kv.2 hE) hrest
      · rw [if_neg hc]
        refine ih _ ?_ hrest
        intro p hp
        rcases List.mem_append.mp hp with hh | hh
        · exact hE p hh
        · rw [List.mem_singleton] at hh; subst hh; exact hkv

theorem good_dict_fold {β : Type} (key : β → String) (val : β → PlatRow)
    (hval : ∀ r, (val r).source = key r) :
    ∀ (rows : List β) (acc : List (String × PlatRow)),
      goodMap acc → goodMap (dict_fold key val acc rows) := by
  intro rows
  induction rows with
  | nil => intro acc h; exact h
  | cons r rest ih =>
      intro acc h
      rw [dict_fold_cons]
      by_cases hk : key r = ""
      · rw [if_pos hk]; exact ih acc h
      · rw [if_neg hk]; exact ih _ (good_insertOrUpdate h (hval r) hk)

theorem good_read_csv_to_dict (f : FileRead PlatRow) : goodMap (read_csv_to_dict f) := by
  match f with
  | none => intro p hp; simp [read_csv_to_dict] at hp
  | some (rows, b) =>
      show goodMap (read_csv_to_dict_rows rows)
      rw [read_csv_to_dict_rows_eq_fold]
      exact good_dict_fold _ _ (fun r => rfl) rows []
        (fun p hp => absurd hp (List.not_mem_nil p))

theorem good_new_data_of (rows : List OrigRow) : goodMap (new_data_of rows) := by
  rw [new_data_of_eq_fold]
  exact good_dict_fold (fun r => r.Key)
    (fun row => { source := row.Key, target := row.SourceString,
                  developer_comments := row.Comment })
    (fun r => rfl) rows [] (fun p hp => absurd hp (List.not_mem_nil p))

theorem nodup_keys_read_csv_to_dict (f : FileRead PlatRow) :
    (keysOf (read_csv_to_dict f)).Nodup := by
  match f with
  | none => simp [read_csv_to_dict, keysOf]
  | some (rows, b) =>
      show (keysOf (read_csv_to_dict_rows rows)).Nodup
      rw [read_csv_to_dict_rows_eq_fold]
      exact dict_fold_nodup _ _ rows [] (by simp [keysOf])

theorem nodup_keys_new_data_of (rows : List OrigRow) : (keysOf (new_data_of rows)).Nodup := by
  rw [new_data_of_eq_fold]
  exact dict_fold_nodup _ _ rows [] (by simp [keysOf])

theorem writeRows_eq_of_good {m : List (String × PlatRow)} (h : goodMap m) :
    writeRows m = m.map (fun p => p.2) := by
  rw [writeRows]
  apply List.filter_eq_self.mpr
  intro row hrow
  obtain ⟨p, hp, hpe⟩ := List.mem_map.mp hrow
  subst hpe
  have := h p hp
  simp [this.1, this.2]

theorem map_source_writeRows {m : List (String × PlatRow)} (h : goodMap m) :
    (writeRows m).map (fun r => r.source) = keysOf m := by
  rw [writeRows_eq_of_good h, List.map_map, keysOf]
  apply List.map_congr_left
  intro p hp
  exact (h p hp).1

theorem dict_fold_rebuild :
    ∀ (m acc : List (String × PlatRow)), goodMap m → (keysOf acc ++ keysOf m).Nodup →
      dict_fold (fun r => r.source) (fun r => r) acc (m.map (fun p => p.2)) = acc ++ m := by
  intro m
  induction m with
  | nil => intro acc _ _; simp [dict_fold_nil]
  | cons p rest ih =>
      intro acc hg hnd
      obtain ⟨k, e⟩ := p
      have hke := hg (k, e) (List.mem_cons_self _ _)
      have hsrc : e.source = k := hke.1
      have hk : k ≠ "" := hke.2
      rw [List.map_cons, dict_fold_cons]
      rw [if_neg (by rw [hsrc]; exact hk)]
      have hnotin : k ∉ keysOf acc := by
        have hdisj := (List.nodup_append.mp (by simpa [keysOf] using hnd)).2.2
        intro hmem
        exact hdisj hmem (by simp [keysOf])
      have hni : insertOrUpdate acc e.source e = acc ++ [(k, e)] := by
        rw [hsrc]
        exact insertOrUpdate_of_not_contains acc k e
          ((containsKey_eq_false_iff acc k).mpr hnotin)
      rw [hni]
      have hg' : goodMap rest := fun q hq => hg q (List.mem_cons_of_mem _ hq)
      have hnd' : (keysOf (acc ++ [(k, e)]) ++ keysOf rest).Nodup := by
        have : keysOf (acc ++ [(k, e)]) ++ keysOf rest = keysOf acc ++ (k :: keysOf rest) := by
          simp [keysOf]
        rw [this]
        simpa [keysOf] using hnd
      rw [ih (acc ++ [(k, e)]) hg' hnd']
      simp

theorem read_csv_to_dict_rows_rebuild {m : List (String × PlatRow)}
    (hg : goodMap m) (hnd : (keysOf m).Nodup) :
    read_csv_to_dict_rows (writeRows m) = m := by
  rw [writeRows_eq_of_good hg, read_csv_to_dict_rows_eq_fold]
  have := dict_fold_rebuild m [] hg (by simpa [keysOf] using hnd)
  simpa using this

/-! Characterisations of the row-appending loops. -/

theorem foldl_append_eq_map {α β : Type} (f : α → β) :
    ∀ (rows : List α) (acc : List β),
      rows.foldl (fun a r => a ++ [f r]) acc = acc ++ rows.map f := by
  intro rows
  induction rows with
  | nil => intro acc; simp
  | cons r rest ih => intro acc; simp [ih]

theorem apply_rows_eq_map (tm : List (String × TransEntry)) (rows : List OrigRow) :
    apply_rows tm rows = rows.map (apply_row tm) := by
  rw [apply_rows, foldl_append_eq_map (apply_row tm) rows []]
  simp

theorem create_rows_aux :
    ∀ (rows : List OrigRow) (acc : List PlatRow),
      rows.foldl
        (fun acc row =>
          if row.Key = "" then acc
          else acc ++ [{ source := row.Key, target := row.SourceString,
                         developer_comments := row.Comment }]) acc
      = acc ++ (rows.filter (fun x => x.Key ≠ "")).map
          (fun x => { source := x.Key, target := x.SourceString,
                      developer_comments := x.Comment }) := by
  intro rows
  induction rows with
  | nil => intro acc; simp
  | cons r rest ih =>
      intro acc
      by_cases h : r.Key = "" <;> simp [h, ih, List.filter_cons]

theorem create_rows_eq (rows : List OrigRow) :
    create_rows rows =
      (rows.filter (fun x => x.Key ≠ "")).map
        (fun x => { source := x.Key, target := x.SourceString,
                    developer_comments := x.Comment }) := by
  rw [create_rows, create_rows_aux rows []]
  simp

theorem mem_create_rows {rows : List OrigRow} {p : PlatRow} :
    p ∈ create_rows rows ↔
      ∃ r ∈ rows, r.Key ≠ "" ∧
        p = { source := r.Key, target := r.SourceString,
              developer_comments := r.Comment } := by
  rw [create_rows_eq]
  simp only [List.mem_map, List.mem_filter]
  constructor
  · rintro ⟨r, ⟨hr, hk⟩, rfl⟩
    exact ⟨r, hr, by simpa using hk, rfl⟩
  · rintro ⟨r, hr, hk, rfl⟩
    exact ⟨r, ⟨hr, by simpa using hk⟩, rfl⟩

/-- Every entry of `N` is already "filled" inside `mergeInto E N`: a second
pass of the merge loop changes nothing for it. -/
theorem merged_filled (E N : List (String × PlatRow)) (hN : (keysOf N).Nodup) :
    ∀ p ∈ N, ∃ e, lookup (mergeInto E N) p.1 = some e ∧ fill_entry e p.2 = e := by
  intro p hp
  have hlp : lookup N p.1 = some p.2 := mem_lookup_of_nodup N p hN hp
  rw [lookup_mergeInto N E p.1 hN, hlp]
  cases hE : lookup E p.1 with
  | none => exact ⟨p.2, rfl, fill_entry_self p.2⟩
  | some e0 => exact ⟨fill_entry e0 p.2, rfl, fill_entry_fill e0 p.2⟩

theorem apply_row_of_lookup_none (tm : List (String × TransEntry)) (r : OrigRow)
    (hl : lookup tm r.Key = none) : apply_row tm r = r := by
  simp [apply_row, hl]

theorem apply_row_of_lookup_some (tm : List (String × TransEntry)) (r : OrigRow)
    (e : TransEntry) (hl : lookup tm r.Key = some e) :
    apply_row tm r =
      { Key := r.Key,
        SourceString := if e.target ≠ "" then e.target else r.SourceString,
        Comment := r.Comment } := by
  simp [apply_row, hl]

theorem create_new_file_ok (rows : List OrigRow) :
    create_new_file (Except.ok rows) =
      if create_rows rows = [] then none else some (create_rows rows) := rfl

theorem create_new_file_source_ne (res : Except Unit (List OrigRow)) (out : List PlatRow)
    (hout : create_new_file res = some out) : ∀ p ∈ out, p.source ≠ "" := by
  intro p hp
  match res with
  | Except.error e => exact Option.noConfusion hout
  | Except.ok rs =>
      rw [create_new_file_ok] at hout
      by_cases he : create_rows rs = []
      · rw [if_pos he] at hout; exact Option.noConfusion hout
      · rw [if_neg he] at hout
        have hoe : out = create_rows rs := (Option.some.inj hout).symm
        subst hoe
        obtain ⟨r, _, hk, rfl⟩ := mem_create_rows.mp hp
        simpa using hk

theorem update_file_source_ne (ef : FileRead PlatRow) (res : Except Unit (List OrigRow))
    (out : List PlatRow) (hout : update_or_insert_existing_file ef res = some out) :
    ∀ p ∈ out, p.source ≠ "" := by
  intro p hp
  match res with
  | Except.error e => exact Option.noConfusion hout
  | Except.ok rs =>
      have heq : update_or_insert_existing_file ef (Except.ok rs)
          = some (writeRows (mergeInto (read_csv_to_dict ef) (new_data_of rs))) := rfl
      rw [heq] at hout
      have hoe : out = writeRows (mergeInto (read_csv_to_dict ef) (new_data_of rs)) :=
        (Option.some.inj hout).symm
      subst hoe
      rw [writeRows] at hp
      have := List.of_mem_filter hp
      simpa using this

theorem dict_fold_all_empty {α β : Type} (key : β → String) (val : β → α) :
    ∀ (rows : List β) (acc : List (String × α)), (∀ r ∈ rows, key r = "") →
      dict_fold key val acc rows = acc := by
  intro rows
  induction rows with
  | nil => intro acc _; rfl
  | cons r rest ih =>
      intro acc h
      rw [dict_fold_cons, if_pos (h r (List.mem_cons_self r rest))]
      exact ih acc (fun q hq => h q (List.mem_cons_of_mem r hq))

/-! Claim theorems. -/

/-- C1: the incremental merge never overwrites a non-empty existing value —
for a key present both in the existing mapping E and in the new mapping N,
the merged entry's `target` is E's target when that is non-empty and N's
target when E's is empty, and likewise for `developer_comments`. -/
theorem merge_never_overwrites (ef : FileRead PlatRow) (rows : List OrigRow)
    (k : String) (eE eN : PlatRow)
    (hE : lookup (read_csv_to_dict ef) k = some eE)
    (hN : lookup (new_data_of rows) k = some eN) :
    ∃ e, lookup (mergeInto (read_csv_to_dict ef) (new_data_of rows)) k = some e
      ∧ e.target = (if eE.target = "" then eN.target else eE.target)
      ∧ e.developer_comments =
          (if eE.developer_comments = "" then eN.developer_comments
           else eE.developer_comments) := by
  rw [lookup_mergeInto _ _ k (nodup_keys_new_data_of rows), hN, hE]
  exact ⟨fill_entry eE eN, rfl, rfl, rfl⟩

/-- Witness for C1: existing entry `K1 ↦ {target := Bonjour, comments := ""}`
merged with fresh row `K1 ↦ {Hello, c}` keeps the non-empty `Bonjour` and
fills the empty comment with `c`. -/
theorem merge_never_overwrites_witness :
    lookup (read_csv_to_dict (some ([⟨"K1", "Bonjour", ""⟩], false))) "K1"
        = some ⟨"K1", "Bonjour", ""⟩
    ∧ lookup (new_data_of [⟨"K1", "Hello", "c"⟩]) "K1" = some ⟨"K1", "Hello", "c"⟩
    ∧ ∃ e, lookup (mergeInto (read_csv_to_dict (some ([⟨"K1", "Bonjour", ""⟩], false)))
            (new_data_of [⟨"K1", "Hello", "c"⟩])) "K1" = some e
        ∧ e.target = (if ("Bonjour" : String) = "" then "Hello" else "Bonjour")
        ∧ e.developer_comments = (if ("" : String) = "" then "c" else "") :=
  ⟨by decide, by decide,
    merge_never_overwrites (some ([⟨"K1", "Bonjour", ""⟩], false)) [⟨"K1", "Hello", "c"⟩]
      "K1" ⟨"K1", "Bonjour", ""⟩ ⟨"K1", "Hello", "c"⟩ (by decide) (by decide)⟩

/-- C9: in the merge path, an input-read error returns before any write (the
existing file is untouched), while a successful input read always rewrites
the output file — header plus the merged rows — even when the merged mapping
is empty. -/
theorem merge_atomicity (ef : FileRead PlatRow) (rows : List OrigRow) (err : Unit) :
    update_or_insert_existing_file ef (Except.error err) = none
    ∧ update_or_insert_existing_file ef (Except.ok rows)
        = some (writeRows (mergeInto (read_csv_to_dict ef) (new_data_of rows))) :=
  ⟨rfl, rfl⟩

/-- C10: the fresh-export path emits exactly one output row per valid input
row, in input order (no deduplication), whereas the merge path's `new_data`
dict has duplicate-free keys and keeps the last occurrence of a duplicated
key. -/
theorem fresh_export_no_dedup (rows : List OrigRow) (r : OrigRow) :
    create_rows rows
        = (rows.filter (fun x => x.Key ≠ "")).map
            (fun x => { source := x.Key, target := x.SourceString,
                        developer_comments := x.Comment })
    ∧ (keysOf (new_data_of rows)).Nodup
    ∧ lookup (new_data_of (rows ++ [r])) r.Key
        = (if r.Key = "" then lookup (new_data_of rows) r.Key
           else some { source := r.Key, target := r.SourceString,
                       developer_comments := r.Comment }) := by
  refine ⟨create_rows_eq rows, nodup_keys_new_data_of rows, ?_⟩
  rw [new_data_of_eq_fold, dict_fold_append_single]
  by_cases h : r.Key = ""
  · rw [if_pos h, if_pos h, new_data_of_eq_fold]
  · rw [if_neg h, if_neg h, lookup_insertOrUpdate, if_pos rfl]

/-- C3: the merged output is the union of the existing file's keys and the
input's non-empty keys, written existing-order first and then new keys in
input order; existing-only entries are unchanged and input-only keys are
inserted with `target = SourceString` and `developer_comments = Comment`. -/
theorem merged_contents_and_order (ef : FileRead PlatRow) (rows : List OrigRow) :
    ((writeRows (mergeInto (read_csv_to_dict ef) (new_data_of rows))).map (fun r => r.source)
        = keysOf (read_csv_to_dict ef)
          ++ (keysOf (new_data_of rows)).filter (fun k => !containsKey (read_csv_to_dict ef) k))
    ∧ (∀ k, containsKey (new_data_of rows) k = false →
        lookup (mergeInto (read_csv_to_dict ef) (new_data_of rows)) k
          = lookup (read_csv_to_dict ef) k)
    ∧ (∀ k, containsKey (read_csv_to_dict ef) k = false →
        lookup (mergeInto (read_csv_to_dict ef) (new_data_of rows)) k
          = lookup (new_data_of rows) k)
    ∧ (∀ k, containsKey (new_data_of rows) k = true ↔ (k ≠ "" ∧ ∃ r ∈ rows, r.Key = k))
    ∧ (∀ k e, lookup (new_data_of rows) k = some e →
        ∃ r ∈ rows, r.Key = k ∧ e.target = r.SourceString
          ∧ e.developer_comments = r.Comment) := by
  refine ⟨?_, ?_, ?_, ?_, ?_⟩
  · rw [map_source_writeRows
        (good_mergeInto _ _ (good_read_csv_to_dict ef) (good_new_data_of rows)),
      keysOf_mergeInto _ _ (nodup_keys_new_data_of rows)]
  · intro k hk
    rw [lookup_mergeInto _ _ k (nodup_keys_new_data_of rows),
      lookup_of_not_contains _ _ hk]
  · intro k hk
    rw [lookup_mergeInto _ _ k (nodup_keys_new_data_of rows),
      lookup_of_not_contains _ _ hk]
    cases hN : lookup (new_data_of rows) k <;> rfl
  · intro k
    constructor
    · intro hc
      obtain ⟨v, hv⟩ := lookup_of_contains _ _ hc
      rw [new_data_of_eq_fold] at hv
      rcases dict_fold_lookup_mem _ _ rows [] k v hv with ⟨r, hr, h1, h2, h3⟩ | habs
      · exact ⟨h1 ▸ h2, r, hr, h1⟩
      · exact Option.noConfusion habs
    · rintro ⟨hk, r, hr, rfl⟩
      rw [new_data_of_eq_fold]
      exact dict_fold_contains_of_mem _ _ rows [] r hr hk
  · intro k e he
    rw [new_data_of_eq_fold] at he
    rcases dict_fold_lookup_mem _ _ rows [] k e he with ⟨r, hr, h1, h2, h3⟩ | habs
    · subst h3; exact ⟨r, hr, h1, rfl, rfl⟩
    · exact Option.noConfusion habs

/-- Witness for C3: a stale existing key is retained untouched, a new input
key is inserted with the source string as target, and the `new_data` lookup
facts are discharged on concrete data. -/
theorem merged_contents_and_order_witness :
    (lookup (mergeInto (read_csv_to_dict (some ([⟨"stale", "S", "d"⟩], false)))
          (new_data_of [⟨"newkey", "NewVal", "nc"⟩])) "stale"
        = lookup (read_csv_to_dict (some ([⟨"stale", "S", "d"⟩], false))) "stale")
    ∧ (lookup (mergeInto (read_csv_to_dict (some ([⟨"stale", "S", "d"⟩], false)))
          (new_data_of [⟨"newkey", "NewVal", "nc"⟩])) "newkey"
        = lookup (new_data_of [⟨"newkey", "NewVal", "nc"⟩]) "newkey")
    ∧ (∃ r ∈ [OrigRow.mk "newkey" "NewVal" "nc"], r.Key = "newkey"
        ∧ (PlatRow.mk "newkey" "NewVal" "nc").target = r.SourceString
        ∧ (PlatRow.mk "newkey" "NewVal" "nc").developer_comments = r.Comment) :=
  ⟨(merged_contents_and_order (some ([⟨"stale", "S", "d"⟩], false))
      [⟨"newkey", "NewVal", "nc"⟩]).2.1 "stale" (by decide),
   (merged_contents_and_order (some ([⟨"stale", "S", "d"⟩], false))
      [⟨"newkey", "NewVal", "nc"⟩]).2.2.1 "newkey" (by decide),
   (merged_contents_and_order (some ([⟨"stale", "S", "d"⟩], false))
      [⟨"newkey", "NewVal", "nc"⟩]).2.2.2.2 "newkey" ⟨"newkey", "NewVal", "nc"⟩ (by decide)⟩

/-- C2: per-row importer contract — the output `SourceString` is the mapped
target when the key is in the map with a non-empty target and the input
`SourceString` otherwise, while `Key` and `Comment` are always carried from
the input row (map comments ignored). -/
theorem importer_row_contract (tm : List (String × TransEntry)) (rows : List OrigRow) :
    (apply_rows tm rows).length = rows.length
    ∧ ∀ (i : Nat) (r o : OrigRow), rows[i]? = some r → (apply_rows tm rows)[i]? = some o →
        o.Key = r.Key ∧ o.Comment = r.Comment
        ∧ (∀ e, lookup tm r.Key = some e → e.target ≠ "" → o.SourceString = e.target)
        ∧ (∀ e, lookup tm r.Key = some e → e.target = "" → o.SourceString = r.SourceString)
        ∧ (lookup tm r.Key = none → o.SourceString = r.SourceString) := by
  constructor
  · rw [apply_rows_eq_map]; exact List.length_map _ _
  · intro i r o hr ho
    rw [apply_rows_eq_map, List.getElem?_map, hr] at ho
    have hoe : o = apply_row tm r := by
      rw [Option.map_some'] at ho
      exact (Option.some.inj ho).symm
    subst hoe
    cases hl : lookup tm r.Key with
    | none =>
        rw [apply_row_of_lookup_none tm r hl]
        refine ⟨rfl, rfl, ?_, ?_, fun _ => rfl⟩
        · intro e he _; exact Option.noConfusion he
        · intro e he _; exact Option.noConfusion he
    | some e0 =>
        rw [apply_row_of_lookup_some tm r e0 hl]
        refine ⟨rfl, rfl, ?_, ?_, ?_⟩
        · intro e he hne
          have he0 : e0 = e := Option.some.inj he
          subst he0
          show (if e0.target ≠ "" then e0.target else r.SourceString) = e0.target
          rw [if_pos hne]
        · intro e he hemp
          have he0 : e0 = e := Option.some.inj he
          subst he0
          show (if e0.target ≠ "" then e0.target else r.SourceString) = r.SourceString
          rw [if_neg (not_not_intro hemp)]
        · intro hnone; exact Option.noConfusion hnone

/-- Witness for C2: map entry `K1 ↦ Bonjour` applied to row `(K1, Hello, c)`
yields `SourceString = Bonjour` with key and comment untouched. -/
theorem importer_row_contract_witness :
    ([(⟨"K1", "Hello", "c"⟩ : OrigRow)] : List OrigRow)[0]? = some ⟨"K1", "Hello", "c"⟩
    ∧ (apply_rows [("K1", ⟨"Bonjour", "mc"⟩)] [⟨"K1", "Hello", "c"⟩])[0]?
        = some ⟨"K1", "Bonjour", "c"⟩
    ∧ (OrigRow.mk "K1" "Bonjour" "c").SourceString = (TransEntry.mk "Bonjour" "mc").target
    ∧ (OrigRow.mk "K1" "Bonjour" "c").Key = (OrigRow.mk "K1" "Hello" "c").Key
    ∧ (OrigRow.mk "K1" "Bonjour" "c").Comment = (OrigRow.mk "K1" "Hello" "c").Comment :=
  ⟨by decide, by decide,
   ((importer_row_contract [("K1", ⟨"Bonjour", "mc"⟩)] [⟨"K1", "Hello", "c"⟩]).2 0
      ⟨"K1", "Hello", "c"⟩ ⟨"K1", "Bonjour", "c"⟩ (by decide) (by decide)).2.2.1
      ⟨"Bonjour", "mc"⟩ (by decide) (by decide),
   ((importer_row_contract [("K1", ⟨"Bonjour", "mc"⟩)] [⟨"K1", "Hello", "c"⟩]).2 0
      ⟨"K1", "Hello", "c"⟩ ⟨"K1", "Bonjour", "c"⟩ (by decide) (by decide)).1,
   ((importer_row_contract [("K1", ⟨"Bonjour", "mc"⟩)] [⟨"K1", "Hello", "c"⟩]).2 0
      ⟨"K1", "Hello", "c"⟩ ⟨"K1", "Bonjour", "c"⟩ (by decide) (by decide)).2.1⟩

/-- C4: the merge is idempotent — running the exporter's merge a second time,
against the file just written by the first run and the same unchanged input,
writes exactly the same file again. -/
theorem merge_idempotent (ef : FileRead PlatRow) (rows : List OrigRow)
    (w : List PlatRow) (h1 : update_or_insert_existing_file ef (Except.ok rows) = some w) :
    update_or_insert_existing_file (some (w, false)) (Except.ok rows) = some w := by
  have hw : w = writeRows (mergeInto (read_csv_to_dict ef) (new_data_of rows)) := by
    have heq : update_or_insert_existing_file ef (Except.ok rows)
        = some (writeRows (mergeInto (read_csv_to_dict ef) (new_data_of rows))) := rfl
    rw [heq] at h1
    exact (Option.some.inj h1).symm
  subst hw
  have hgood : goodMap (mergeInto (read_csv_to_dict ef) (new_data_of rows)) :=
    good_mergeInto _ _ (good_read_csv_to_dict ef) (good_new_data_of rows)
  have hnodN : (keysOf (new_data_of rows)).Nodup := nodup_keys_new_data_of rows
  have hnod : (keysOf (mergeInto (read_csv_to_dict ef) (new_data_of rows))).Nodup := by
    rw [keysOf_mergeInto _ _ hnodN]
    refine (nodup_keys_read_csv_to_dict ef).append (hnodN.filter _) ?_
    intro k hkE hkF
    have hf := List.of_mem_filter hkF
    exact (containsKey_eq_false_iff (read_csv_to_dict ef) k).mp (by simpa using hf) hkE
  have hrun : update_or_insert_existing_file
      (some (writeRows (mergeInto (read_csv_to_dict ef) (new_data_of rows)), false))
      (Except.ok rows)
    = some (writeRows (mergeInto
        (read_csv_to_dict_rows (writeRows (mergeInto (read_csv_to_dict ef) (new_data_of rows))))
        (new_data_of rows))) := rfl
  rw [hrun, read_csv_to_dict_rows_rebuild hgood hnod,
    mergeInto_eq_self (new_data_of rows) (mergeInto (read_csv_to_dict ef) (new_data_of rows))
      (merged_filled (read_csv_to_dict ef) (new_data_of rows) hnodN)]

/-- Witness for C4: a first merge of `(K, Hello, c)` into an empty existing
file writes one row, and a second merge over that written file writes the
identical row again. -/
theorem merge_idempotent_witness :
    update_or_insert_existing_file (some ([], false)) (Except.ok [⟨"K", "Hello", "c"⟩])
        = some [⟨"K", "Hello", "c"⟩]
    ∧ update_or_insert_existing_file (some ([(⟨"K", "Hello", "c"⟩ : PlatRow)], false))
        (Except.ok [⟨"K", "Hello", "c"⟩]) = some [⟨"K", "Hello", "c"⟩] :=
  ⟨by decide,
   merge_idempotent (some ([], false)) [⟨"K", "Hello", "c"⟩] [⟨"K", "Hello", "c"⟩] (by decide)⟩

/-- Counterexample to C5 as stated: with two rows sharing key `K` and
different source strings, the fresh export keeps both rows but the
translation map built from it keeps only the last one (`b`), so the import
rewrites the first row's string from `a` to `b` — the round trip is not the
identity on every row list. -/
theorem round_trip_not_id_on_dup_keys :
    round_trip [⟨"K", "a", ""⟩, ⟨"K", "b", ""⟩] ≠ [⟨"K", "a", ""⟩, ⟨"K", "b", ""⟩] := by
  decide

/-- C5 (amended): for every original-schema row list in which any two rows
sharing the same non-empty key have equal `SourceString`, a fresh export
followed by an import against the map built from that export yields the
original rows unchanged. -/
theorem round_trip_identity (rows : List OrigRow)
    (h : ∀ r1 ∈ rows, ∀ r2 ∈ rows, r1.Key ≠ "" → r1.Key = r2.Key →
      r1.SourceString = r2.SourceString) :
    round_trip rows = rows := by
  have happ : ∀ (tm : List (String × TransEntry)),
      (∀ r ∈ rows, apply_row tm r = r) → apply_rows tm rows = rows := by
    intro tm hall
    rw [apply_rows_eq_map]
    have hmap : rows.map (apply_row tm) = rows.map id :=
      List.map_congr_left (fun r hr => hall r hr)
    rw [hmap, List.map_id]
  unfold round_trip
  cases hcf : create_new_file (Except.ok rows) with
  | none => exact happ [] (fun r hr => apply_row_of_lookup_none [] r rfl)
  | some written =>
      have hw : written = create_rows rows := by
        rw [create_new_file_ok] at hcf
        by_cases he : create_rows rows = []
        · rw [if_pos he] at hcf; exact Option.noConfusion hcf
        · rw [if_neg he] at hcf; exact (Option.some.inj hcf).symm
      subst hw
      apply happ
      intro r hr
      cases hl : lookup (read_translation_map (some (create_rows rows, false))) r.Key with
      | none => exact apply_row_of_lookup_none _ r hl
      | some e =>
          have hts : e.target = r.SourceString := by
            have hl' : lookup (read_translation_map_rows (create_rows rows)) r.Key
                = some e := hl
            rw [read_translation_map_rows_eq_fold] at hl'
            rcases dict_fold_lookup_mem _ _ (create_rows rows) [] r.Key e hl' with
              ⟨p, hp, h1, h2, h3⟩ | habs
            · obtain ⟨r', hr', hk', hpe⟩ := mem_create_rows.mp hp
              subst hpe
              subst h3
              exact h r' hr' r hr hk' h1
            · exact Option.noConfusion habs
          rw [apply_row_of_lookup_some _ r e hl, hts]
          simp

/-- Witness for C5 (amended): a two-row file with distinct keys round-trips
to itself. -/
theorem round_trip_identity_witness :
    (∀ r1 ∈ [(⟨"K1", "Hello", "c"⟩ : OrigRow), ⟨"K2", "World", ""⟩],
      ∀ r2 ∈ [(⟨"K1", "Hello", "c"⟩ : OrigRow), ⟨"K2", "World", ""⟩],
        r1.Key ≠ "" → r1.Key = r2.Key → r1.SourceString = r2.SourceString)
    ∧ round_trip [⟨"K1", "Hello", "c"⟩, ⟨"K2", "World", ""⟩]
        = [⟨"K1", "Hello", "c"⟩, ⟨"K2", "World", ""⟩] :=
  ⟨by decide, round_trip_identity [⟨"K1", "Hello", "c"⟩, ⟨"K2", "World", ""⟩] (by decide)⟩

/-- Counterexample to C6 as stated: the importer applies no key filter, so a
row with an empty `Key` is carried into — and written to — its output. -/
theorem importer_emits_empty_key :
    apply_translation_to_original (Except.ok [⟨"", "x", "c"⟩]) [] = some [⟨"", "x", "c"⟩]
    ∧ ((apply_translation_to_original (Except.ok [⟨"", "x", "c"⟩]) []).getD []).any
        (fun r => r.Key = "") = true := by
  decide

/-- C6 (amended): the exporter's fresh export and merge never emit a row with
an empty key, but the importer carries every input row through unchanged in
its key — including rows whose key is empty. -/
theorem empty_key_rows_policy (ef : FileRead PlatRow) (res : Except Unit (List OrigRow))
    (tm : List (String × TransEntry)) (rows : List OrigRow) :
    (∀ out, create_new_file res = some out → ∀ p ∈ out, p.source ≠ "")
    ∧ (∀ out, update_or_insert_existing_file ef res = some out → ∀ p ∈ out, p.source ≠ "")
    ∧ (apply_rows tm rows).map (fun r => r.Key) = rows.map (fun r => r.Key) := by
  refine ⟨fun out hout => create_new_file_source_ne res out hout,
    fun out hout => update_file_source_ne ef res out hout, ?_⟩
  rw [apply_rows_eq_map, List.map_map]
  exact List.map_congr_left (fun r hr => rfl)

/-- Witness for C6 (amended): a valid row exports with a non-empty source,
and the importer maps an empty-key row to an output row with the same empty
key. -/
theorem empty_key_rows_policy_witness :
    (∀ p ∈ [(⟨"a", "b", "c"⟩ : PlatRow)], p.source ≠ "")
    ∧ (apply_rows [] [(⟨"", "x", "c"⟩ : OrigRow)]).map (fun r => r.Key)
        = [(⟨"", "x", "c"⟩ : OrigRow)].map (fun r => r.Key) :=
  ⟨(empty_key_rows_policy none (Except.ok [⟨"a", "b", "c"⟩]) [] []).1
      [⟨"a", "b", "c"⟩] (by decide),
   (empty_key_rows_policy none (Except.ok [⟨"a", "b", "c"⟩]) [] [⟨"", "x", "c"⟩]).2.2⟩

/-- Counterexample to C7 as stated: the translation map is accumulated before
the `try` completes, so a parse failure after one well-formed row returns a
one-entry map, not the empty mapping. -/
theorem reader_partial_map_on_parse_abort :
    read_translation_map (some ([⟨"a", "b", "c"⟩], true)) ≠ [] := by
  decide

/-- C7 (amended): rows with a missing or empty source are skipped and no keyed
entry is ever stored under the empty key; an open failure returns the empty
mapping; a parse failure partway through returns the mapping accumulated from
the rows yielded before the failure (the failure itself is never propagated).
The exporter's reader behaves identically. -/
theorem reader_error_policy (rows rows2 : List PlatRow) (b : Bool) (r : PlatRow)
    (f : FileRead PlatRow) :
    read_translation_map none = []
    ∧ read_csv_to_dict none = []
    ∧ read_translation_map (some (rows, true)) = read_translation_map (some (rows, false))
    ∧ read_csv_to_dict (some (rows, true)) = read_csv_to_dict (some (rows, false))
    ∧ (r.source = "" →
        read_translation_map (some (rows ++ r :: rows2, b))
          = read_translation_map (some (rows ++ rows2, b)))
    ∧ lookup (read_translation_map f) "" = none := by
  refine ⟨rfl, rfl, rfl, rfl, ?_, ?_⟩
  · intro hsrc
    show read_translation_map_rows (rows ++ r :: rows2)
        = read_translation_map_rows (rows ++ rows2)
    rw [read_translation_map_rows, read_translation_map_rows,
      List.foldl_append, List.foldl_append, List.foldl_cons]
    simp [hsrc]
  · match f with
    | none => rfl
    | some (rs, b') =>
        show lookup (read_translation_map_rows rs) "" = none
        rw [read_translation_map_rows_eq_fold, dict_fold_lookup_empty]
        rfl

/-- Witness for C7 (amended): a middle row with empty source is skipped — the
map built with it present equals the map built without it. -/
theorem reader_error_policy_witness :
    read_translation_map
        (some ([(⟨"a", "b", "c"⟩ : PlatRow)] ++ (⟨"", "t", "d"⟩ : PlatRow) ::
          [(⟨"e", "f", "g"⟩ : PlatRow)], false))
      = read_translation_map
        (some ([(⟨"a", "b", "c"⟩ : PlatRow)] ++ [(⟨"e", "f", "g"⟩ : PlatRow)], false)) :=
  (reader_error_policy [⟨"a", "b", "c"⟩] [⟨"e", "f", "g"⟩] false ⟨"", "t", "d"⟩
    none).2.2.2.2.1 rfl

/-- Counterexample to C8 as stated: in the merge case an input consisting
only of empty-key rows still rewrites the output file — the merge writes the
retained existing entries (here the single row `E`) rather than producing no
output file. -/
theorem merge_writes_on_all_invalid_input :
    update_or_insert_existing_file (some ([⟨"E", "t", "d"⟩], false))
        (Except.ok [⟨"", "x", "y"⟩]) = some [⟨"E", "t", "d"⟩] := by
  decide

/-- C8 (amended): no exporter output ever contains a row with an empty key;
in the fresh-export case an input of only empty-key rows produces no output
file; in the merge case the output file is rewritten regardless, containing
exactly the rows of the existing mapping. -/
theorem exporter_empty_key_filtering (ef : FileRead PlatRow)
    (res : Except Unit (List OrigRow)) (rows : List OrigRow) :
    (∀ out, create_new_file res = some out → ∀ p ∈ out, p.source ≠ "")
    ∧ (∀ out, update_or_insert_existing_file ef res = some out → ∀ p ∈ out, p.source ≠ "")
    ∧ ((∀ r ∈ rows, r.Key = "") → create_new_file (Except.ok rows) = none)
    ∧ ((∀ r ∈ rows, r.Key = "") →
        update_or_insert_existing_file ef (Except.ok rows)
          = some (writeRows (read_csv_to_dict ef))) := by
  refine ⟨fun out hout => create_new_file_source_ne res out hout,
    fun out hout => update_file_source_ne ef res out hout, ?_, ?_⟩
  · intro hall
    have hnil : create_rows rows = [] := by
      rw [create_rows_eq]
      have : rows.filter (fun x => x.Key ≠ "") = [] := by
        apply List.filter_eq_nil_iff.mpr
        intro r hr
        simp [hall r hr]
      rw [this, List.map_nil]
    rw [create_new_file_ok, if_pos hnil]
  · intro hall
    have hnil : new_data_of rows = [] := by
      rw [new_data_of_eq_fold]
      exact dict_fold_all_empty _ _ rows [] hall
    have heq : update_or_insert_existing_file ef (Except.ok rows)
        = some (writeRows (mergeInto (read_csv_to_dict ef) (new_data_of rows))) := rfl
    rw [heq, hnil, mergeInto_nil]

/-- Witness for C8 (amended): on the all-empty-key input `[("", x, y)]` the
fresh export writes nothing while the merge still rewrites the existing
single-row file. -/
theorem exporter_empty_key_filtering_witness :
    (∀ p ∈ [(⟨"k", "v", "w"⟩ : PlatRow)], p.source ≠ "")
    ∧ create_new_file (Except.ok [(⟨"", "x", "y"⟩ : OrigRow)]) = none
    ∧ update_or_insert_existing_file (some ([(⟨"E", "t", "d"⟩ : PlatRow)], false))
        (Except.ok [(⟨"", "x", "y"⟩ : OrigRow)])
      = some (writeRows (read_csv_to_dict (some ([(⟨"E", "t", "d"⟩ : PlatRow)], false)))) :=
  ⟨(exporter_empty_key_filtering none (Except.ok [⟨"k", "v", "w"⟩]) []).1
      [⟨"k", "v", "w"⟩] (by decide),
   (exporter_empty_key_filtering none (Except.ok [⟨"", "x", "y"⟩]) [⟨"", "x", "y"⟩]).2.2.1
      (by decide),
   (exporter_empty_key_filtering (some ([⟨"E", "t", "d"⟩], false))
      (Except.ok [⟨"", "x", "y"⟩]) [⟨"", "x", "y"⟩]).2.2.2 (by decide)⟩

end Loc
